import Mathlib

set_option maxRecDepth 100000

/-!
Verification of the bond YTM calculation engine (src/ytm-modules/calculations.js).

The engine is shallowly embedded over the rationals: JavaScript numbers are
modelled as exact rationals, so every arithmetic step of the source is mirrored
by the corresponding exact operation.  The four exported functions of the
module — calculateYTM, generateCashFlows, analyzeBondPricing and
calculateBondYTMMetrics — are translated definition by definition below,
and the testable properties of the specification are proved about them.
-/

/-- Input record of the engine, mirroring the parameter object destructured by
calculateYTM: bondPrice, couponPayment (annual), years, faceValue, frequency. -/
structure BondParameters where
  bondPrice : ℚ
  couponPayment : ℚ
  years : ℚ
  faceValue : ℚ
  frequency : ℚ
deriving DecidableEq

/-- State of the bisection loop when it exits: the final bracket
endpoints low and high, and the iteration counter. -/
structure BisectResult where
  low : ℚ
  high : ℚ
  iters : ℕ
deriving DecidableEq

/-- Result record of calculateYTM, with the same fields the source returns. -/
structure YTMResult where
  yieldPerPeriod : ℚ
  bondEquivalentYield : ℚ
  effectiveAnnualYield : ℚ
  periods : ℚ
  couponPayment : ℚ
  cashFlows : List ℚ
  iterations : ℕ
deriving DecidableEq

/-- One row of the schedule produced by generateCashFlows. -/
structure CashFlowEntry where
  period : ℕ
  timeYears : ℚ
  couponPayment : ℚ
  principalPayment : ℚ
  totalCashFlow : ℚ
deriving DecidableEq, Inhabited

/-- Tag of the pricing classification: the three string tags of the source. -/
inductive PricingType where
  | par : PricingType
  | premium : PricingType
  | discount : PricingType
deriving DecidableEq

/-- Result of analyzeBondPricing: tag plus display strings. -/
structure PricingAnalysis where
  type : PricingType
  description : String
  detail : String
deriving DecidableEq

/-- Result of calculateBondYTMMetrics: the spread of the YTMResult fields with
cashFlows overridden by the generated schedule, plus the pricing analysis. -/
structure BondYTMMetrics where
  yieldPerPeriod : ℚ
  bondEquivalentYield : ℚ
  effectiveAnnualYield : ℚ
  periods : ℚ
  couponPayment : ℚ
  iterations : ℕ
  cashFlows : List CashFlowEntry
  pricingAnalysis : PricingAnalysis
deriving DecidableEq

/-- Bisection tolerance constant of the source: 0.0000001. -/
def tolerance : ℚ := 1 / 10000000

/-- Iteration cap of the source: maxIterations = 200. -/
def maxIterations : ℕ := 200

/-- Discounted sum of an indexed tail of the cash-flow list, mirroring the
reduce in calculateYTM: the element at offset t contributes cf / (1+y)^(t+1). -/
def pvAux (y : ℚ) : List ℚ → ℕ → ℚ
  | [], _ => 0
  | cf :: rest, t => cf / (1 + y) ^ (t + 1) + pvAux y rest (t + 1)

/-- The presentValue closure of calculateYTM: sum over the cash-flow array of
cashFlow[t] / (1 + yieldPerPeriod)^(t+1). -/
def presentValue (cashFlows : List ℚ) (y : ℚ) : ℚ := pvAux y cashFlows 0

/-- Cash-flow array built by calculateYTM: the loop runs the integer index i
over 0 ≤ i < periods (hence ⌈periods⌉₊ entries for positive periods), pushing
couponPaymentPerPeriod, except couponPaymentPerPeriod + faceValue when
i === periods - 1. -/
def mkCashFlows (couponPerPeriod faceValue periods : ℚ) : List ℚ :=
  (List.range ⌈periods⌉₊).map fun i : ℕ =>
    if (i : ℚ) = periods - 1 then couponPerPeriod + faceValue else couponPerPeriod

/-- Bisection loop of calculateYTM.  The source loops
while iterations < maxIterations and high - low > tolerance; here the remaining
allowance maxIterations - iterations is passed as structural fuel, and the
iteration counter is threaded exactly as in the source. -/
def bisectGo (P : ℚ → Bool) : ℕ → ℚ → ℚ → ℕ → BisectResult
  | 0, low, high, iters => ⟨low, high, iters⟩
  | fuel + 1, low, high, iters =>
    if high - low > tolerance then
      if P ((low + high) / 2) then bisectGo P fuel ((low + high) / 2) high (iters + 1)
      else bisectGo P fuel low ((low + high) / 2) (iters + 1)
    else ⟨low, high, iters⟩

/-- Cash-flow array of calculateYTM for a given parameter record:
periods = years * frequency and couponPaymentPerPeriod = couponPayment / frequency. -/
def ytmCashFlows (p : BondParameters) : List ℚ :=
  mkCashFlows (p.couponPayment / p.frequency) p.faceValue (p.years * p.frequency)

/-- The bisection search of calculateYTM: low starts at 0, high at 1, the
iteration counter at 0, and low is raised at a midpoint exactly when the
present value there exceeds bondPrice. -/
def ytmBisect (p : BondParameters) : BisectResult :=
  bisectGo (fun mid => decide (presentValue (ytmCashFlows p) mid > p.bondPrice))
    maxIterations 0 1 0

/-- The calculateYTM function of the source.  yieldPerPeriod is the midpoint of
the final bracket; bondEquivalentYield multiplies it by frequency and
effectiveAnnualYield compounds it over frequency periods.  The source computes
the compound power with a real exponent; since the input contract fixes
frequency to a positive integer, the exponent is modelled as ⌊frequency⌋₊. -/
def calculateYTM (p : BondParameters) : YTMResult :=
  { yieldPerPeriod := ((ytmBisect p).low + (ytmBisect p).high) / 2
    bondEquivalentYield := ((ytmBisect p).low + (ytmBisect p).high) / 2 * p.frequency
    effectiveAnnualYield := (1 + ((ytmBisect p).low + (ytmBisect p).high) / 2) ^ ⌊p.frequency⌋₊ - 1
    periods := p.years * p.frequency
    couponPayment := p.couponPayment / p.frequency
    cashFlows := ytmCashFlows p
    iterations := (ytmBisect p).iters }

/-- The generateCashFlows function of the source: a period-0 purchase row
followed by one row per integer period t with 1 ≤ t ≤ periods (hence
⌊periods⌋₊ rows), carrying the periodic coupon and, at t === periods, the
face-value redemption.  The unused ytmPerPeriod parameter of the source is kept. -/
def generateCashFlows (bondPrice faceValue frequency years couponPayment ytmPerPeriod : ℚ) :
    List CashFlowEntry :=
  ⟨0, 0, 0, -bondPrice, -bondPrice⟩ ::
    (List.range ⌊years * frequency⌋₊).map fun k : ℕ =>
      ⟨k + 1, ((k : ℚ) + 1) / frequency, couponPayment,
        if ((k : ℚ) + 1) = years * frequency then faceValue else 0,
        couponPayment + (if ((k : ℚ) + 1) = years * frequency then faceValue else 0)⟩

/-- The analyzeBondPricing function of the source: par when the absolute price
difference is under the 0.01 tolerance, else premium when positive, else
discount. -/
def analyzeBondPricing (bondPrice faceValue : ℚ) : PricingAnalysis :=
  if |bondPrice - faceValue| < 1 / 100 then
    ⟨PricingType.par, "Trading at par", "Price equals face value"⟩
  else if bondPrice - faceValue > 0 then
    ⟨PricingType.premium, "Trading at premium", "Price > Par"⟩
  else
    ⟨PricingType.discount, "Trading at discount", "Price < Par"⟩

/-- The calculateBondYTMMetrics function of the source: run calculateYTM, then
generateCashFlows with the solver's periodic coupon and rate, then
analyzeBondPricing, and merge. -/
def calculateBondYTMMetrics (p : BondParameters) : BondYTMMetrics :=
  { yieldPerPeriod := (calculateYTM p).yieldPerPeriod
    bondEquivalentYield := (calculateYTM p).bondEquivalentYield
    effectiveAnnualYield := (calculateYTM p).effectiveAnnualYield
    periods := (calculateYTM p).periods
    couponPayment := (calculateYTM p).couponPayment
    iterations := (calculateYTM p).iterations
    cashFlows := generateCashFlows p.bondPrice p.faceValue p.frequency p.years
      (calculateYTM p).couponPayment (calculateYTM p).yieldPerPeriod
    pricingAnalysis := analyzeBondPricing p.bondPrice p.faceValue }

/-- Total indexing into a schedule, defaulting past the end. -/
def cfAt (l : List CashFlowEntry) (i : ℕ) : CashFlowEntry := l.getD i default

/-- Weight sum Σ (t+1) · cashFlow[t] over an indexed tail of the cash-flow
list: a Lipschitz bound for pvAux on nonnegative rates, used as the scale of
the present-value round-trip bound. -/
def pvWeight : List ℚ → ℕ → ℚ
  | [], _ => 0
  | cf :: rest, t => ((t : ℚ) + 1) * cf + pvWeight rest (t + 1)


/-- Arithmetic fact behind the loop guard: widths 1/2^k for k ≤ 23 still
exceed the tolerance. -/
lemma tolerance_lt_inv_pow (k : ℕ) (hk : k ≤ 23) : tolerance < 1 / 2 ^ k := by
  have h2 : (0:ℚ) < 2 ^ k := pow_pos (by norm_num) k
  have h1 : (2:ℚ) ^ k ≤ 2 ^ 23 := pow_le_pow_right₀ (by norm_num) hk
  have h3 : (1:ℚ) / 2 ^ 23 ≤ 1 / 2 ^ k := one_div_le_one_div_of_le h2 h1
  have h4 : tolerance < 1 / 2 ^ 23 := by rw [tolerance]; norm_num
  linarith

/-- Arithmetic fact behind the loop exit: width 1/2^24 is within tolerance. -/
lemma inv_pow_24_le_tolerance : (1:ℚ) / 2 ^ 24 ≤ tolerance := by
  rw [tolerance]; norm_num

/-- Core invariant of the bisection loop: starting at bracket width 1/2^k with
iteration counter k and at least 24 - k fuel left, the loop exits with counter
24, bracket width exactly 1/2^24, and a bracket nested inside [0, 1]. -/
lemma bisectGo_main (P : ℚ → Bool) :
    ∀ fuel k : ℕ, ∀ low high : ℚ, 24 ≤ fuel + k → k ≤ 24 →
      0 ≤ low → low ≤ high → high ≤ 1 → high - low = 1 / 2 ^ k →
      (bisectGo P fuel low high k).iters = 24 ∧
        (bisectGo P fuel low high k).high - (bisectGo P fuel low high k).low = 1 / 2 ^ 24 ∧
        0 ≤ (bisectGo P fuel low high k).low ∧
        (bisectGo P fuel low high k).low ≤ (bisectGo P fuel low high k).high ∧
        (bisectGo P fuel low high k).high ≤ 1 := by
  intro fuel
  induction fuel with
  | zero =>
    intro k low high h24 hk h0 hlh hh1 hw
    have hk24 : k = 24 := by omega
    subst hk24
    exact ⟨rfl, hw, h0, hlh, hh1⟩
  | succ fuel ih =>
    intro k low high h24 hk h0 hlh hh1 hw
    by_cases hk24 : k = 24
    · subst hk24
      have hng : ¬ (high - low > tolerance) := by
        rw [hw]
        exact not_lt.mpr inv_pow_24_le_tolerance
      have hstep : bisectGo P (fuel + 1) low high 24 = ⟨low, high, 24⟩ := by
        simp only [bisectGo, if_neg hng]
      rw [hstep]
      exact ⟨rfl, hw, h0, hlh, hh1⟩
    · have hk23 : k ≤ 23 := by omega
      have hg : high - low > tolerance := by
        rw [hw]; exact tolerance_lt_inv_pow k hk23
      have hmidl : low ≤ (low + high) / 2 := by linarith
      have hmidh : (low + high) / 2 ≤ high := by linarith
      have hwl : (low + high) / 2 - low = 1 / 2 ^ (k + 1) := by
        have h : (low + high) / 2 - low = (high - low) / 2 := by ring
        rw [h, hw, pow_succ]; ring
      have hwh : high - (low + high) / 2 = 1 / 2 ^ (k + 1) := by
        have h : high - (low + high) / 2 = (high - low) / 2 := by ring
        rw [h, hw, pow_succ]; ring
      by_cases hP : P ((low + high) / 2) = true
      · have hstep : bisectGo P (fuel + 1) low high k =
            bisectGo P fuel ((low + high) / 2) high (k + 1) := by
          simp only [bisectGo, if_pos hg, if_pos hP]
        rw [hstep]
        exact ih (k + 1) ((low + high) / 2) high (by omega) (by omega)
          (le_trans h0 hmidl) hmidh hh1 hwh
      · have hstep : bisectGo P (fuel + 1) low high k =
            bisectGo P fuel low ((low + high) / 2) (k + 1) := by
          simp only [bisectGo, if_pos hg, if_neg hP]
        rw [hstep]
        exact ih (k + 1) low ((low + high) / 2) (by omega) (by omega)
          h0 hmidl (le_trans hmidh hh1) hwl

/-- Bracketing invariant of the loop: if the predicate matches the comparison
pv x > price and the initial endpoints bracket the price
(pv low ≥ price ≥ pv high), the final endpoints still bracket it. -/
lemma bisectGo_bracket (pv : ℚ → ℚ) (price : ℚ) (P : ℚ → Bool)
    (hP : ∀ x, P x = true ↔ price < pv x) :
    ∀ fuel : ℕ, ∀ low high : ℚ, ∀ iters : ℕ, price ≤ pv low → pv high ≤ price →
      price ≤ pv (bisectGo P fuel low high iters).low ∧
        pv (bisectGo P fuel low high iters).high ≤ price := by
  intro fuel
  induction fuel with
  | zero => intro low high iters hlo hhi; exact ⟨hlo, hhi⟩
  | succ fuel ih =>
    intro low high iters hlo hhi
    by_cases hg : high - low > tolerance
    · by_cases hPm : P ((low + high) / 2) = true
      · have hstep : bisectGo P (fuel + 1) low high iters =
            bisectGo P fuel ((low + high) / 2) high (iters + 1) := by
          simp only [bisectGo, if_pos hg, if_pos hPm]
        rw [hstep]
        exact ih _ _ _ (le_of_lt ((hP _).mp hPm)) hhi
      · have hstep : bisectGo P (fuel + 1) low high iters =
            bisectGo P fuel low ((low + high) / 2) (iters + 1) := by
          simp only [bisectGo, if_pos hg, if_neg hPm]
        rw [hstep]
        have hmle : pv ((low + high) / 2) ≤ price := by
          by_contra hc
          exact hPm ((hP _).mpr (lt_of_not_le hc))
        exact ih _ _ _ hlo hmle
    · have hstep : bisectGo P (fuel + 1) low high iters = ⟨low, high, iters⟩ := by
        simp only [bisectGo, if_neg hg]
      rw [hstep]
      exact ⟨hlo, hhi⟩

/-- The loop samples its predicate only at midpoints of the current bracket,
so two predicates that agree on the initial bracket produce identical runs. -/
lemma bisectGo_congr (P Q : ℚ → Bool) :
    ∀ fuel : ℕ, ∀ low high : ℚ, ∀ iters : ℕ,
      (∀ x, low ≤ x → x ≤ high → P x = Q x) →
      bisectGo P fuel low high iters = bisectGo Q fuel low high iters := by
  intro fuel
  induction fuel with
  | zero => intro low high iters _; rfl
  | succ fuel ih =>
    intro low high iters hPQ
    by_cases hg : high - low > tolerance
    · have hlh : low ≤ high := by
        have ht : (0:ℚ) < tolerance := by rw [tolerance]; norm_num
        linarith
      have hmidl : low ≤ (low + high) / 2 := by linarith
      have hmidh : (low + high) / 2 ≤ high := by linarith
      have hQP : Q ((low + high) / 2) = P ((low + high) / 2) :=
        (hPQ ((low + high) / 2) hmidl hmidh).symm
      by_cases hPm : P ((low + high) / 2) = true
      · have h1 : bisectGo P (fuel + 1) low high iters =
            bisectGo P fuel ((low + high) / 2) high (iters + 1) := by
          simp only [bisectGo, if_pos hg, if_pos hPm]
        have h2 : bisectGo Q (fuel + 1) low high iters =
            bisectGo Q fuel ((low + high) / 2) high (iters + 1) := by
          simp only [bisectGo, if_pos hg, if_pos (hQP.trans hPm)]
        rw [h1, h2]
        exact ih _ _ _ fun x hx hx2 => hPQ x (le_trans hmidl hx) hx2
      · have h1 : bisectGo P (fuel + 1) low high iters =
            bisectGo P fuel low ((low + high) / 2) (iters + 1) := by
          simp only [bisectGo, if_pos hg, if_neg hPm]
        have h2 : bisectGo Q (fuel + 1) low high iters =
            bisectGo Q fuel low ((low + high) / 2) (iters + 1) := by
          have : ¬ Q ((low + high) / 2) = true := fun hc => hPm (hQP ▸ hc)
          simp only [bisectGo, if_pos hg, if_neg this]
        rw [h1, h2]
        exact ih _ _ _ fun x hx hx2 => hPQ x hx (le_trans hx2 hmidh)
    · have h1 : bisectGo P (fuel + 1) low high iters = ⟨low, high, iters⟩ := by
        simp only [bisectGo, if_neg hg]
      have h2 : bisectGo Q (fuel + 1) low high iters = ⟨low, high, iters⟩ := by
        simp only [bisectGo, if_neg hg]
      rw [h1, h2]

/-- Run shape under an always-true predicate: the floor climbs while the
ceiling stays fixed, so the loop exits at ⟨high - 1/2^24, high, 24⟩. -/
lemma bisectGo_allTrue_go :
    ∀ fuel k : ℕ, ∀ low high : ℚ, 24 ≤ fuel + k → k ≤ 24 →
      high - low = 1 / 2 ^ k →
      bisectGo (fun _ => true) fuel low high k = ⟨high - 1 / 2 ^ 24, high, 24⟩ := by
  intro fuel
  induction fuel with
  | zero =>
    intro k low high h24 hk hw
    have hk24 : k = 24 := by omega
    subst hk24
    have hlow : low = high - 1 / 2 ^ 24 := by linarith
    rw [bisectGo, hlow]
  | succ fuel ih =>
    intro k low high h24 hk hw
    by_cases hk24 : k = 24
    · subst hk24
      have hng : ¬ (high - low > tolerance) := by
        rw [hw]; exact not_lt.mpr inv_pow_24_le_tolerance
      have hlow : low = high - 1 / 2 ^ 24 := by linarith
      have hstep : bisectGo (fun _ => true) (fuel + 1) low high 24 = ⟨low, high, 24⟩ := by
        simp only [bisectGo, if_neg hng]
      rw [hstep, hlow]
    · have hk23 : k ≤ 23 := by omega
      have hg : high - low > tolerance := by
        rw [hw]; exact tolerance_lt_inv_pow k hk23
      have hwh : high - (low + high) / 2 = 1 / 2 ^ (k + 1) := by
        have h : high - (low + high) / 2 = (high - low) / 2 := by ring
        rw [h, hw, pow_succ]; ring
      have hstep : bisectGo (fun _ => true) (fuel + 1) low high k =
          bisectGo (fun _ => true) fuel ((low + high) / 2) high (k + 1) := by
        simp only [bisectGo, if_pos hg, if_true]
      rw [hstep]
      exact ih (k + 1) ((low + high) / 2) high (by omega) (by omega) hwh

/-- Run shape under an always-false predicate: the ceiling drops while the
floor stays fixed, so the loop exits at ⟨low, low + 1/2^24, 24⟩. -/
lemma bisectGo_allFalse_go :
    ∀ fuel k : ℕ, ∀ low high : ℚ, 24 ≤ fuel + k → k ≤ 24 →
      high - low = 1 / 2 ^ k →
      bisectGo (fun _ => false) fuel low high k = ⟨low, low + 1 / 2 ^ 24, 24⟩ := by
  intro fuel
  induction fuel with
  | zero =>
    intro k low high h24 hk hw
    have hk24 : k = 24 := by omega
    subst hk24
    have hhigh : high = low + 1 / 2 ^ 24 := by linarith
    rw [bisectGo, hhigh]
  | succ fuel ih =>
    intro k low high h24 hk hw
    by_cases hk24 : k = 24
    · subst hk24
      have hng : ¬ (high - low > tolerance) := by
        rw [hw]; exact not_lt.mpr inv_pow_24_le_tolerance
      have hhigh : high = low + 1 / 2 ^ 24 := by linarith
      have hstep : bisectGo (fun _ => false) (fuel + 1) low high 24 = ⟨low, high, 24⟩ := by
        simp only [bisectGo, if_neg hng]
      rw [hstep, hhigh]
    · have hk23 : k ≤ 23 := by omega
      have hg : high - low > tolerance := by
        rw [hw]; exact tolerance_lt_inv_pow k hk23
      have hwl : (low + high) / 2 - low = 1 / 2 ^ (k + 1) := by
        have h : (low + high) / 2 - low = (high - low) / 2 := by ring
        rw [h, hw, pow_succ]; ring
      have hstep : bisectGo (fun _ => false) (fuel + 1) low high k =
          bisectGo (fun _ => false) fuel low ((low + high) / 2) (k + 1) := by
        simp only [bisectGo, if_pos hg, Bool.false_eq_true, if_false]
      rw [hstep]
      exact ih (k + 1) low ((low + high) / 2) (by omega) (by omega) hwl

/-- Division with a nonnegative numerator is antitone in the denominator. -/
lemma div_le_div_nonneg_left {a b c : ℚ} (ha : 0 ≤ a) (hb : 0 < b) (hbc : b ≤ c) :
    a / c ≤ a / b := by
  rw [div_le_div_iff (lt_of_lt_of_le hb hbc) hb]
  exact mul_le_mul_of_nonneg_left hbc ha

/-- The present-value sum is antitone in the rate when all cash flows are
nonnegative. -/
lemma pvAux_anti :
    ∀ (cfs : List ℚ) (t : ℕ) (a b : ℚ), (∀ cf ∈ cfs, 0 ≤ cf) → 0 ≤ b → b ≤ a →
      pvAux a cfs t ≤ pvAux b cfs t := by
  intro cfs
  induction cfs with
  | nil => intro t a b _ _ _; exact le_refl 0
  | cons cf rest ih =>
    intro t a b hcf hb hba
    have hcf0 : 0 ≤ cf := hcf cf (List.mem_cons_self cf rest)
    have hb1 : (0:ℚ) < 1 + b := by linarith
    have hpowpos : (0:ℚ) < (1 + b) ^ (t + 1) := pow_pos hb1 (t + 1)
    have hpowle : (1 + b) ^ (t + 1) ≤ (1 + a) ^ (t + 1) :=
      pow_le_pow_left (le_of_lt hb1) (by linarith) (t + 1)
    exact add_le_add (div_le_div_nonneg_left hcf0 hpowpos hpowle)
      (ih (t + 1) a b (fun x hx => hcf x (List.mem_cons_of_mem cf hx)) hb hba)

/-- The present-value sum is strictly antitone in the rate when all cash flows
are nonnegative and at least one is positive. -/
lemma pvAux_strictAnti :
    ∀ (cfs : List ℚ) (t : ℕ) (a b : ℚ), (∀ cf ∈ cfs, 0 ≤ cf) →
      (∃ cf ∈ cfs, 0 < cf) → 0 ≤ b → b < a →
      pvAux a cfs t < pvAux b cfs t := by
  intro cfs
  induction cfs with
  | nil => intro t a b _ hex _ _; obtain ⟨cf, hmem, _⟩ := hex; exact absurd hmem (List.not_mem_nil cf)
  | cons cf rest ih =>
    intro t a b hcf hex hb hba
    have hcf0 : 0 ≤ cf := hcf cf (List.mem_cons_self cf rest)
    have hb1 : (0:ℚ) < 1 + b := by linarith
    have hpowpos : (0:ℚ) < (1 + b) ^ (t + 1) := pow_pos hb1 (t + 1)
    have hpowlt : (1 + b) ^ (t + 1) < (1 + a) ^ (t + 1) :=
      pow_lt_pow_left (by linarith) (le_of_lt hb1) (Nat.succ_ne_zero t)
    obtain ⟨w, hwmem, hwpos⟩ := hex
    rcases List.mem_cons.mp hwmem with hw | hw
    · have hcfpos : 0 < cf := hw ▸ hwpos
      have hhead : cf / (1 + a) ^ (t + 1) < cf / (1 + b) ^ (t + 1) :=
        div_lt_div_of_pos_left hcfpos hpowpos hpowlt
      have htail : pvAux a rest (t + 1) ≤ pvAux b rest (t + 1) :=
        pvAux_anti rest (t + 1) a b (fun x hx => hcf x (List.mem_cons_of_mem cf hx)) hb
          (le_of_lt hba)
      exact add_lt_add_of_lt_of_le hhead htail
    · have hhead : cf / (1 + a) ^ (t + 1) ≤ cf / (1 + b) ^ (t + 1) :=
        div_le_div_nonneg_left hcf0 hpowpos (le_of_lt hpowlt)
      have htail : pvAux a rest (t + 1) < pvAux b rest (t + 1) :=
        ih (t + 1) a b (fun x hx => hcf x (List.mem_cons_of_mem cf hx)) ⟨w, hw, hwpos⟩ hb hba
      exact add_lt_add_of_le_of_lt hhead htail

/-- Difference of powers bound on [0, 1]: x^n - y^n ≤ n (x - y). -/
lemma pow_sub_pow_le_nsmul :
    ∀ (n : ℕ) (x y : ℚ), 0 ≤ y → y ≤ x → x ≤ 1 → x ^ n - y ^ n ≤ (n : ℚ) * (x - y) := by
  intro n
  induction n with
  | zero => intro x y _ _ _; norm_num
  | succ n ih =>
    intro x y hy hyx hx1
    have hyn : y ^ n ≤ 1 := pow_le_one₀ hy (le_trans hyx hx1)
    have hyn0 : 0 ≤ y ^ n := pow_nonneg hy n
    have hpow : y ^ n ≤ x ^ n := pow_le_pow_left hy hyx n
    have hih : x ^ n - y ^ n ≤ (n : ℚ) * (x - y) := ih x y hy hyx hx1
    have hkey : x ^ (n + 1) - y ^ (n + 1) = x * (x ^ n - y ^ n) + y ^ n * (x - y) := by
      rw [pow_succ, pow_succ]; ring
    have h1 : x * (x ^ n - y ^ n) ≤ 1 * (x ^ n - y ^ n) :=
      mul_le_mul_of_nonneg_right hx1 (by linarith)
    have h2 : y ^ n * (x - y) ≤ 1 * (x - y) :=
      mul_le_mul_of_nonneg_right hyn (by linarith)
    have hcast : ((n + 1 : ℕ) : ℚ) = (n : ℚ) + 1 := by push_cast; ring
    rw [hkey, hcast]
    linarith

/-- Lipschitz bound for the present-value sum on nonnegative rates, with
constant pvWeight: pv(b) - pv(a) ≤ (Σ (t+1)·cf_t) · (a - b) for 0 ≤ b ≤ a. -/
lemma pvAux_lipschitz :
    ∀ (cfs : List ℚ) (t : ℕ) (a b : ℚ), (∀ cf ∈ cfs, 0 ≤ cf) → 0 ≤ b → b ≤ a →
      pvAux b cfs t - pvAux a cfs t ≤ pvWeight cfs t * (a - b) := by
  intro cfs
  induction cfs with
  | nil => intro t a b _ _ _; simp [pvAux, pvWeight]
  | cons cf rest ih =>
    intro t a b hcf hb hba
    have hcf0 : 0 ≤ cf := hcf cf (List.mem_cons_self cf rest)
    have hb1 : (0:ℚ) < 1 + b := by linarith
    have ha1 : (0:ℚ) < 1 + a := by linarith
    have hu1 : 1 / (1 + b) ≤ 1 := by
      rw [div_le_one hb1]; linarith
    have hvu : 1 / (1 + a) ≤ 1 / (1 + b) := one_div_le_one_div_of_le hb1 (by linarith)
    have hv0 : 0 ≤ 1 / (1 + a) := le_of_lt (one_div_pos.mpr ha1)
    have huv : 1 / (1 + b) - 1 / (1 + a) ≤ a - b := by
      rw [div_sub_div 1 1 (ne_of_gt hb1) (ne_of_gt ha1)]
      have hnum : 1 * (1 + a) - (1 + b) * 1 = a - b := by ring
      rw [hnum]
      have hden : (1:ℚ) ≤ (1 + b) * (1 + a) := by nlinarith
      exact div_le_self (by linarith) hden
    have hpows : (1 / (1 + b)) ^ (t + 1) - (1 / (1 + a)) ^ (t + 1) ≤
        ((t + 1 : ℕ) : ℚ) * (a - b) := by
      have h := pow_sub_pow_le_nsmul (t + 1) (1 / (1 + b)) (1 / (1 + a)) hv0 hvu hu1
      have hmul : ((t + 1 : ℕ) : ℚ) * (1 / (1 + b) - 1 / (1 + a)) ≤
          ((t + 1 : ℕ) : ℚ) * (a - b) :=
        mul_le_mul_of_nonneg_left huv (by positivity)
      linarith
    have hhead : cf / (1 + b) ^ (t + 1) - cf / (1 + a) ^ (t + 1) ≤
        ((t : ℚ) + 1) * cf * (a - b) := by
      have hrw1 : cf / (1 + b) ^ (t + 1) = cf * (1 / (1 + b)) ^ (t + 1) := by
        rw [one_div_pow]; ring
      have hrw2 : cf / (1 + a) ^ (t + 1) = cf * (1 / (1 + a)) ^ (t + 1) := by
        rw [one_div_pow]; ring
      have hfac : cf * (1 / (1 + b)) ^ (t + 1) - cf * (1 / (1 + a)) ^ (t + 1) =
          cf * ((1 / (1 + b)) ^ (t + 1) - (1 / (1 + a)) ^ (t + 1)) := by ring
      have hcast : ((t + 1 : ℕ) : ℚ) = (t : ℚ) + 1 := by push_cast; ring
      have hstep : cf * ((1 / (1 + b)) ^ (t + 1) - (1 / (1 + a)) ^ (t + 1)) ≤
          cf * (((t + 1 : ℕ) : ℚ) * (a - b)) :=
        mul_le_mul_of_nonneg_left hpows hcf0
      rw [hrw1, hrw2, hfac]
      rw [hcast] at hstep
      linarith
    have htail : pvAux b rest (t + 1) - pvAux a rest (t + 1) ≤ pvWeight rest (t + 1) * (a - b) :=
      ih (t + 1) a b (fun x hx => hcf x (List.mem_cons_of_mem cf hx)) hb hba
    show pvAux b (cf :: rest) t - pvAux a (cf :: rest) t ≤ pvWeight (cf :: rest) t * (a - b)
    rw [pvAux, pvAux, pvWeight]
    ring_nf
    ring_nf at hhead htail
    linarith

/-- The Lipschitz weight is nonnegative for nonnegative cash flows. -/
lemma pvWeight_nonneg :
    ∀ (cfs : List ℚ) (t : ℕ), (∀ cf ∈ cfs, 0 ≤ cf) → 0 ≤ pvWeight cfs t := by
  intro cfs
  induction cfs with
  | nil => intro t _; exact le_refl 0
  | cons cf rest ih =>
    intro t hcf
    have hcf0 : 0 ≤ cf := hcf cf (List.mem_cons_self cf rest)
    have h1 : (0:ℚ) ≤ ((t : ℚ) + 1) * cf := by positivity
    have h2 : 0 ≤ pvWeight rest (t + 1) := ih (t + 1) fun x hx => hcf x (List.mem_cons_of_mem cf hx)
    rw [pvWeight]
    linarith

/-- Shifting the index of the discounted sum by one divides it by (1 + y). -/
lemma pvAux_shift :
    ∀ (cfs : List ℚ) (y : ℚ) (t : ℕ), 1 + y ≠ 0 →
      pvAux y cfs (t + 1) = pvAux y cfs t / (1 + y) := by
  intro cfs
  induction cfs with
  | nil => intro y t _; simp [pvAux]
  | cons cf rest ih =>
    intro y t hy
    rw [pvAux, pvAux, ih y (t + 1) hy, add_div]
    congr 1
    rw [div_div, pow_succ]

/-- Ceiling-of-cast computations: mkCashFlows at a one-period horizon is the
single redemption flow. -/
lemma mkCashFlows_natCast_one (c f : ℚ) : mkCashFlows c f ((1 : ℕ) : ℚ) = [c + f] := by
  rw [mkCashFlows, Nat.ceil_natCast]
  rw [show List.range 1 = [0] from rfl]
  norm_num

/-- Peeling one coupon off the front of the cash-flow list; valid while at
least one more period remains. -/
lemma mkCashFlows_natCast_succ (c f : ℚ) (n : ℕ) (hn : 1 ≤ n) :
    mkCashFlows c f ((n + 1 : ℕ) : ℚ) = c :: mkCashFlows c f ((n : ℕ) : ℚ) := by
  rw [mkCashFlows, mkCashFlows, Nat.ceil_natCast, Nat.ceil_natCast,
    List.range_succ_eq_map, List.map_cons, List.map_map]
  congr 1
  · have h0 : ¬ ((0 : ℕ) : ℚ) = ((n + 1 : ℕ) : ℚ) - 1 := by
      push_cast
      intro hc
      have : (n : ℚ) = 0 := by linarith
      have hn0 : n = 0 := by exact_mod_cast this
      omega
    rw [if_neg h0]
  · apply List.map_congr_left
    intro i _
    show (if ((i + 1 : ℕ) : ℚ) = ((n + 1 : ℕ) : ℚ) - 1 then c + f else c) =
      (if ((i : ℕ) : ℚ) = ((n : ℕ) : ℚ) - 1 then c + f else c)
    have hiff : (((i + 1 : ℕ) : ℚ) = ((n + 1 : ℕ) : ℚ) - 1) ↔
        (((i : ℕ) : ℚ) = ((n : ℕ) : ℚ) - 1) := by
      push_cast
      constructor <;> intro h <;> linarith
    exact if_congr hiff rfl rfl

/-- Every element of the cash-flow list is either the periodic coupon or the
coupon plus the face value. -/
lemma mkCashFlows_mem (c f periods : ℚ) :
    ∀ x ∈ mkCashFlows c f periods, x = c ∨ x = c + f := by
  intro x hx
  rw [mkCashFlows] at hx
  obtain ⟨i, _, hix⟩ := List.mem_map.mp hx
  by_cases hcond : (i : ℚ) = periods - 1
  · right; rw [if_pos hcond] at hix; exact hix.symm
  · left; rw [if_neg hcond] at hix; exact hix.symm

/-- For a positive whole number of periods the final redemption flow is on the
list. -/
lemma mkCashFlows_last_mem (c f : ℚ) (n : ℕ) (hn : 1 ≤ n) :
    c + f ∈ mkCashFlows c f ((n : ℕ) : ℚ) := by
  rw [mkCashFlows, Nat.ceil_natCast]
  apply List.mem_map.mpr
  refine ⟨n - 1, List.mem_range.mpr (by omega), ?_⟩
  have hcast : ((n - 1 : ℕ) : ℚ) = ((n : ℕ) : ℚ) - 1 := by
    rw [Nat.cast_sub hn, Nat.cast_one]
  rw [if_pos hcast]

/-- Par-bond identity: with periodic coupon ρ · f, the cash flows of an
n-period bond discounted at rate ρ are worth exactly the face value f. -/
lemma pvAux_parList :
    ∀ n : ℕ, 1 ≤ n → ∀ f ρ : ℚ, 0 ≤ ρ →
      pvAux ρ (mkCashFlows (ρ * f) f ((n : ℕ) : ℚ)) 0 = f := by
  intro n
  induction n with
  | zero => intro h; omega
  | succ n ih =>
    intro _ f ρ hρ
    have hρ1 : (0:ℚ) < 1 + ρ := by linarith
    by_cases hn : 1 ≤ n
    · rw [mkCashFlows_natCast_succ (ρ * f) f n hn, pvAux,
        pvAux_shift _ ρ 0 (ne_of_gt hρ1), ih hn f ρ hρ]
      field_simp
      ring
    · have hn0 : n = 0 := by omega
      subst hn0
      rw [show ((0 + 1 : ℕ) : ℚ) = ((1 : ℕ) : ℚ) by norm_num, mkCashFlows_natCast_one]
      rw [pvAux, pvAux]
      field_simp
      ring

/-- The present-value sum of nonnegative cash flows at a nonnegative rate is
nonnegative. -/
lemma pvAux_nonneg :
    ∀ (cfs : List ℚ) (t : ℕ) (y : ℚ), (∀ cf ∈ cfs, 0 ≤ cf) → 0 ≤ y → 0 ≤ pvAux y cfs t := by
  intro cfs
  induction cfs with
  | nil => intro t y _ _; exact le_refl 0
  | cons cf rest ih =>
    intro t y hcf hy
    have h1 : 0 ≤ cf / (1 + y) ^ (t + 1) :=
      div_nonneg (hcf cf (List.mem_cons_self cf rest)) (pow_nonneg (by linarith) (t + 1))
    have h2 : 0 ≤ pvAux y rest (t + 1) :=
      ih (t + 1) y (fun x hx => hcf x (List.mem_cons_of_mem cf hx)) hy
    rw [pvAux]
    linarith

/-- Two parallel runs of the loop under pointwise-comparable predicates: if
every midpoint accepted by P2 is accepted by P1, the run of P1 never falls
below the run of P2 — the final brackets are either identical or ordered. -/
lemma bisectGo_pair (P1 P2 : ℚ → Bool) (himp : ∀ x, P2 x = true → P1 x = true) :
    ∀ fuel : ℕ, ∀ low1 high1 low2 high2 : ℚ, ∀ iters : ℕ,
      low1 ≤ high1 → low2 ≤ high2 → high1 - low1 = high2 - low2 →
      ((low1 = low2 ∧ high1 = high2) ∨ high2 ≤ low1) →
      (bisectGo P1 fuel low1 high1 iters).low ≤ (bisectGo P1 fuel low1 high1 iters).high ∧
      (bisectGo P2 fuel low2 high2 iters).low ≤ (bisectGo P2 fuel low2 high2 iters).high ∧
      (((bisectGo P1 fuel low1 high1 iters).low = (bisectGo P2 fuel low2 high2 iters).low ∧
          (bisectGo P1 fuel low1 high1 iters).high = (bisectGo P2 fuel low2 high2 iters).high) ∨
        (bisectGo P2 fuel low2 high2 iters).high ≤ (bisectGo P1 fuel low1 high1 iters).low) := by
  intro fuel
  induction fuel with
  | zero =>
    intro low1 high1 low2 high2 iters h1 h2 _ hd
    exact ⟨h1, h2, hd⟩
  | succ fuel ih =>
    intro low1 high1 low2 high2 iters h1 h2 hww hd
    by_cases hg : high1 - low1 > tolerance
    · have hg2 : high2 - low2 > tolerance := hww ▸ hg
      rcases hd with ⟨hl, hh⟩ | hdisj
      · subst hl
        subst hh
        by_cases hP1 : P1 ((low1 + high1) / 2) = true
        · by_cases hP2 : P2 ((low1 + high1) / 2) = true
          · have hs1 : bisectGo P1 (fuel + 1) low1 high1 iters =
                bisectGo P1 fuel ((low1 + high1) / 2) high1 (iters + 1) := by
              simp only [bisectGo, if_pos hg, if_pos hP1]
            have hs2 : bisectGo P2 (fuel + 1) low1 high1 iters =
                bisectGo P2 fuel ((low1 + high1) / 2) high1 (iters + 1) := by
              simp only [bisectGo, if_pos hg, if_pos hP2]
            rw [hs1, hs2]
            exact ih _ _ _ _ _ (by linarith) (by linarith) rfl (Or.inl ⟨rfl, rfl⟩)
          · have hs1 : bisectGo P1 (fuel + 1) low1 high1 iters =
                bisectGo P1 fuel ((low1 + high1) / 2) high1 (iters + 1) := by
              simp only [bisectGo, if_pos hg, if_pos hP1]
            have hs2 : bisectGo P2 (fuel + 1) low1 high1 iters =
                bisectGo P2 fuel low1 ((low1 + high1) / 2) (iters + 1) := by
              simp only [bisectGo, if_pos hg, if_neg hP2]
            rw [hs1, hs2]
            exact ih _ _ _ _ _ (by linarith) (by linarith) (by ring) (Or.inr (le_refl _))
        · have hP2 : ¬ P2 ((low1 + high1) / 2) = true := fun hc => hP1 (himp _ hc)
          have hs1 : bisectGo P1 (fuel + 1) low1 high1 iters =
              bisectGo P1 fuel low1 ((low1 + high1) / 2) (iters + 1) := by
            simp only [bisectGo, if_pos hg, if_neg hP1]
          have hs2 : bisectGo P2 (fuel + 1) low1 high1 iters =
              bisectGo P2 fuel low1 ((low1 + high1) / 2) (iters + 1) := by
            simp only [bisectGo, if_pos hg, if_neg hP2]
          rw [hs1, hs2]
          exact ih _ _ _ _ _ (by linarith) (by linarith) rfl (Or.inl ⟨rfl, rfl⟩)
      · have hm1l : low1 ≤ (low1 + high1) / 2 := by linarith
        have hm1h : (low1 + high1) / 2 ≤ high1 := by linarith
        have hm2l : low2 ≤ (low2 + high2) / 2 := by linarith
        have hm2h : (low2 + high2) / 2 ≤ high2 := by linarith
        have hwhalf : high1 - (low1 + high1) / 2 = high2 - (low2 + high2) / 2 := by
          have : (high1 - low1) / 2 = (high2 - low2) / 2 := by rw [hww]
          linarith
        have hwhalf2 : high1 - (low1 + high1) / 2 = (low2 + high2) / 2 - low2 := by
          have : (high1 - low1) / 2 = (high2 - low2) / 2 := by rw [hww]
          linarith
        have hwhalf3 : (low1 + high1) / 2 - low1 = high2 - (low2 + high2) / 2 := by
          have : (high1 - low1) / 2 = (high2 - low2) / 2 := by rw [hww]
          linarith
        have hwhalf4 : (low1 + high1) / 2 - low1 = (low2 + high2) / 2 - low2 := by
          have : (high1 - low1) / 2 = (high2 - low2) / 2 := by rw [hww]
          linarith
        by_cases hP1 : P1 ((low1 + high1) / 2) = true
        · have hs1 : bisectGo P1 (fuel + 1) low1 high1 iters =
              bisectGo P1 fuel ((low1 + high1) / 2) high1 (iters + 1) := by
            simp only [bisectGo, if_pos hg, if_pos hP1]
          by_cases hP2 : P2 ((low2 + high2) / 2) = true
          · have hs2 : bisectGo P2 (fuel + 1) low2 high2 iters =
                bisectGo P2 fuel ((low2 + high2) / 2) high2 (iters + 1) := by
              simp only [bisectGo, if_pos hg2, if_pos hP2]
            rw [hs1, hs2]
            exact ih _ _ _ _ _ (by linarith) (by linarith) hwhalf
              (Or.inr (by linarith))
          · have hs2 : bisectGo P2 (fuel + 1) low2 high2 iters =
                bisectGo P2 fuel low2 ((low2 + high2) / 2) (iters + 1) := by
              simp only [bisectGo, if_pos hg2, if_neg hP2]
            rw [hs1, hs2]
            exact ih _ _ _ _ _ (by linarith) (by linarith) hwhalf2
              (Or.inr (by linarith))
        · have hs1 : bisectGo P1 (fuel + 1) low1 high1 iters =
              bisectGo P1 fuel low1 ((low1 + high1) / 2) (iters + 1) := by
            simp only [bisectGo, if_pos hg, if_neg hP1]
          by_cases hP2 : P2 ((low2 + high2) / 2) = true
          · have hs2 : bisectGo P2 (fuel + 1) low2 high2 iters =
                bisectGo P2 fuel ((low2 + high2) / 2) high2 (iters + 1) := by
              simp only [bisectGo, if_pos hg2, if_pos hP2]
            rw [hs1, hs2]
            exact ih _ _ _ _ _ (by linarith) (by linarith) hwhalf3
              (Or.inr (by linarith))
          · have hs2 : bisectGo P2 (fuel + 1) low2 high2 iters =
                bisectGo P2 fuel low2 ((low2 + high2) / 2) (iters + 1) := by
              simp only [bisectGo, if_pos hg2, if_neg hP2]
            rw [hs1, hs2]
            exact ih _ _ _ _ _ (by linarith) (by linarith) hwhalf4
              (Or.inr (by linarith))
    · have hg2 : ¬ high2 - low2 > tolerance := by rw [← hww]; exact hg
      have hs1 : bisectGo P1 (fuel + 1) low1 high1 iters = ⟨low1, high1, iters⟩ := by
        simp only [bisectGo, if_neg hg]
      have hs2 : bisectGo P2 (fuel + 1) low2 high2 iters = ⟨low2, high2, iters⟩ := by
        simp only [bisectGo, if_neg hg2]
      rw [hs1, hs2]
      exact ⟨h1, h2, hd⟩

/-- Projection lemmas of calculateYTM. -/
lemma calculateYTM_yieldPerPeriod (p : BondParameters) :
    (calculateYTM p).yieldPerPeriod = ((ytmBisect p).low + (ytmBisect p).high) / 2 := rfl

/-- The bond-equivalent yield field is the periodic yield times frequency. -/
lemma calculateYTM_bey (p : BondParameters) :
    (calculateYTM p).bondEquivalentYield =
      ((ytmBisect p).low + (ytmBisect p).high) / 2 * p.frequency := rfl

/-- The cashFlows field of the solver result is the internal array. -/
lemma calculateYTM_cashFlows (p : BondParameters) :
    (calculateYTM p).cashFlows = ytmCashFlows p := rfl

/-- The iterations field of the solver result is the loop counter. -/
lemma calculateYTM_iterations (p : BondParameters) :
    (calculateYTM p).iterations = (ytmBisect p).iters := rfl

/-- Specialisation of the loop invariant to the call made by calculateYTM. -/
lemma ytmBisect_spec (p : BondParameters) :
    (ytmBisect p).iters = 24 ∧
      (ytmBisect p).high - (ytmBisect p).low = 1 / 2 ^ 24 ∧
      0 ≤ (ytmBisect p).low ∧ (ytmBisect p).low ≤ (ytmBisect p).high ∧
      (ytmBisect p).high ≤ 1 :=
  bisectGo_main _ maxIterations 0 0 1 (by norm_num [maxIterations]) (by norm_num)
    le_rfl (by norm_num) le_rfl (by norm_num)

/-- The periodic yield of calculateYTM always lies in the search interval. -/
lemma calculateYTM_yield_bounds (p : BondParameters) :
    0 ≤ (calculateYTM p).yieldPerPeriod ∧ (calculateYTM p).yieldPerPeriod ≤ 1 := by
  obtain ⟨_, _, h0, hlh, hh1⟩ := ytmBisect_spec p
  rw [calculateYTM_yieldPerPeriod]
  constructor <;> linarith

/-- Specialisation of the bracketing invariant to the call made by
calculateYTM. -/
lemma ytmBisect_bracket (p : BondParameters)
    (hbr0 : p.bondPrice ≤ presentValue (ytmCashFlows p) 0)
    (hbr1 : presentValue (ytmCashFlows p) 1 ≤ p.bondPrice) :
    p.bondPrice ≤ presentValue (ytmCashFlows p) (ytmBisect p).low ∧
      presentValue (ytmCashFlows p) (ytmBisect p).high ≤ p.bondPrice :=
  bisectGo_bracket (presentValue (ytmCashFlows p)) p.bondPrice _
    (fun x => decide_eq_true_iff) maxIterations 0 1 0 hbr0 hbr1

/-- C9: for every input, calculateYTM's bisection loop exits via the tolerance
condition, never via the 200-iteration cap: starting from the bracket [0, 1]
each pass exactly halves the width to 1/2^n, and 1/2^23 > 1e-7 ≥ 1/2^24, so
the loop runs exactly 24 passes and the returned iterations field is 24 for
every input. -/
theorem claim_C9_iterations_always_24 (p : BondParameters) :
    (calculateYTM p).iterations = 24 := by
  rw [calculateYTM_iterations]
  exact (ytmBisect_spec p).1

/-- C7: calculateYTM terminates for every input with at most 200 loop passes,
and the loop stops as soon as either bound is hit — in fact the bracket width
at exit is always within the 1e-7 tolerance, so the iteration cap of 200 is
never what stops it. -/
theorem claim_C7_termination (p : BondParameters) :
    (calculateYTM p).iterations ≤ maxIterations ∧
      (ytmBisect p).high - (ytmBisect p).low ≤ tolerance := by
  obtain ⟨hit, hw, _, _, _⟩ := ytmBisect_spec p
  constructor
  · rw [calculateYTM_iterations, hit, maxIterations]
    norm_num
  · rw [hw]
    exact inv_pow_24_le_tolerance

/-- C8: calculateYTM and calculateBondYTMMetrics are deterministic — two
invocations with identical parameter values return identical results, in
particular the same iterations count and the same yieldPerPeriod.  The
embedded functions are pure, so this is definitional. -/
theorem claim_C8_deterministic (p1 p2 : BondParameters) (h : p1 = p2) :
    (calculateYTM p1).iterations = (calculateYTM p2).iterations ∧
      (calculateYTM p1).yieldPerPeriod = (calculateYTM p2).yieldPerPeriod ∧
      calculateYTM p1 = calculateYTM p2 ∧
      calculateBondYTMMetrics p1 = calculateBondYTMMetrics p2 := by
  subst h
  exact ⟨rfl, rfl, rfl, rfl⟩

/-- Witness for C8 at the repository's canonical example input. -/
theorem claim_C8_witness :
    (calculateYTM (BondParameters.mk 100 6 5 100 2)).iterations =
        (calculateYTM (BondParameters.mk 100 6 5 100 2)).iterations ∧
      (calculateYTM (BondParameters.mk 100 6 5 100 2)).yieldPerPeriod =
        (calculateYTM (BondParameters.mk 100 6 5 100 2)).yieldPerPeriod ∧
      calculateYTM (BondParameters.mk 100 6 5 100 2) =
        calculateYTM (BondParameters.mk 100 6 5 100 2) ∧
      calculateBondYTMMetrics (BondParameters.mk 100 6 5 100 2) =
        calculateBondYTMMetrics (BondParameters.mk 100 6 5 100 2) :=
  claim_C8_deterministic (BondParameters.mk 100 6 5 100 2) (BondParameters.mk 100 6 5 100 2) rfl

/-- The classification tag of analyzeBondPricing in conditional form. -/
lemma analyzeBondPricing_type (bp f : ℚ) :
    (analyzeBondPricing bp f).type =
      if |bp - f| < 1 / 100 then PricingType.par
      else if bp - f > 0 then PricingType.premium
      else PricingType.discount := by
  rw [analyzeBondPricing]
  split_ifs <;> rfl

/-- C6: analyzeBondPricing returns exactly one of the three tags — par exactly
when |bondPrice - faceValue| < 0.01, premium exactly when the difference is
at least 0.01, discount exactly when it is at most -0.01; in particular
bondPrice = faceValue ± 0.009 classifies as par while +0.011 is premium and
-0.011 is discount. -/
theorem claim_C6_classifier :
    (∀ bondPrice faceValue : ℚ,
      ((analyzeBondPricing bondPrice faceValue).type = PricingType.par ↔
        |bondPrice - faceValue| < 1 / 100) ∧
      ((analyzeBondPricing bondPrice faceValue).type = PricingType.premium ↔
        1 / 100 ≤ bondPrice - faceValue) ∧
      ((analyzeBondPricing bondPrice faceValue).type = PricingType.discount ↔
        bondPrice - faceValue ≤ -(1 / 100))) ∧
    (∀ faceValue : ℚ,
      (analyzeBondPricing (faceValue + 9 / 1000) faceValue).type = PricingType.par ∧
      (analyzeBondPricing (faceValue - 9 / 1000) faceValue).type = PricingType.par ∧
      (analyzeBondPricing (faceValue + 11 / 1000) faceValue).type = PricingType.premium ∧
      (analyzeBondPricing (faceValue - 11 / 1000) faceValue).type = PricingType.discount) := by
  have hmain : ∀ bondPrice faceValue : ℚ,
      ((analyzeBondPricing bondPrice faceValue).type = PricingType.par ↔
        |bondPrice - faceValue| < 1 / 100) ∧
      ((analyzeBondPricing bondPrice faceValue).type = PricingType.premium ↔
        1 / 100 ≤ bondPrice - faceValue) ∧
      ((analyzeBondPricing bondPrice faceValue).type = PricingType.discount ↔
        bondPrice - faceValue ≤ -(1 / 100)) := by
    intro bp f
    rw [analyzeBondPricing_type]
    split_ifs with h1 h2
    · have hab := abs_lt.mp h1
      exact ⟨iff_of_true rfl h1,
        iff_of_false (by decide) (not_le.mpr (by linarith)),
        iff_of_false (by decide) (not_le.mpr (by linarith))⟩
    · have habs : 1 / 100 ≤ |bp - f| := not_lt.mp h1
      rw [abs_of_pos h2] at habs
      exact ⟨iff_of_false (by decide) h1,
        iff_of_true rfl habs,
        iff_of_false (by decide) (not_le.mpr (by linarith))⟩
    · have habs : 1 / 100 ≤ |bp - f| := not_lt.mp h1
      rw [abs_of_nonpos (le_of_not_lt h2)] at habs
      exact ⟨iff_of_false (by decide) h1,
        iff_of_false (by decide) (not_le.mpr (by linarith)),
        iff_of_true rfl (by linarith)⟩
  refine ⟨hmain, fun f => ⟨?_, ?_, ?_, ?_⟩⟩
  · refine (hmain _ f).1.mpr ?_
    rw [show f + 9 / 1000 - f = 9 / 1000 from by ring, abs_of_pos (by norm_num)]
    norm_num
  · refine (hmain _ f).1.mpr ?_
    rw [show f - 9 / 1000 - f = -(9 / 1000) from by ring, abs_of_neg (by norm_num)]
    norm_num
  · refine (hmain _ f).2.1.mpr ?_
    rw [show f + 11 / 1000 - f = 11 / 1000 from by ring]
    norm_num
  · refine (hmain _ f).2.2.mpr ?_
    rw [show f - 11 / 1000 - f = -(11 / 1000) from by ring]
    norm_num

/-- C4: for every input the returned yieldPerPeriod lies in the closed
interval [0, 1]; when the price is so low that the true yield is above the
interval (every cash flow nonnegative and presentValue 1 still above the
price) the solver returns normally with a value within the tolerance of the
upper boundary, and when the price is so high that the true yield is below
the interval (presentValue 0 below the price) it returns a value within the
tolerance of the lower boundary — no out-of-range error in either case. -/
theorem claim_C4_yield_in_unit_interval :
    (∀ p : BondParameters,
      0 ≤ (calculateYTM p).yieldPerPeriod ∧ (calculateYTM p).yieldPerPeriod ≤ 1) ∧
    (∀ p : BondParameters, (∀ cf ∈ ytmCashFlows p, 0 ≤ cf) →
      p.bondPrice < presentValue (ytmCashFlows p) 1 →
      1 - tolerance ≤ (calculateYTM p).yieldPerPeriod) ∧
    (∀ p : BondParameters, (∀ cf ∈ ytmCashFlows p, 0 ≤ cf) →
      presentValue (ytmCashFlows p) 0 < p.bondPrice →
      (calculateYTM p).yieldPerPeriod ≤ tolerance) := by
  refine ⟨fun p => calculateYTM_yield_bounds p, ?_, ?_⟩
  · intro p hnn hlow
    rw [presentValue] at hlow
    have hcongr : ytmBisect p = bisectGo (fun _ => true) 200 0 1 0 := by
      rw [ytmBisect, maxIterations]
      apply bisectGo_congr
      intro x hx0 hx1
      show decide (presentValue (ytmCashFlows p) x > p.bondPrice) = true
      refine decide_eq_true ?_
      have hanti : pvAux 1 (ytmCashFlows p) 0 ≤ pvAux x (ytmCashFlows p) 0 :=
        pvAux_anti (ytmCashFlows p) 0 1 x hnn hx0 hx1
      show p.bondPrice < presentValue (ytmCashFlows p) x
      rw [presentValue]
      linarith
    have hrun : bisectGo (fun _ => true) 200 0 1 0 = ⟨1 - 1 / 2 ^ 24, 1, 24⟩ :=
      bisectGo_allTrue_go 200 0 0 1 (by norm_num) (by norm_num) (by norm_num)
    rw [calculateYTM_yieldPerPeriod, hcongr, hrun]
    norm_num [tolerance]
  · intro p hnn hhighp
    rw [presentValue] at hhighp
    have hcongr : ytmBisect p = bisectGo (fun _ => false) 200 0 1 0 := by
      rw [ytmBisect, maxIterations]
      apply bisectGo_congr
      intro x hx0 hx1
      show decide (presentValue (ytmCashFlows p) x > p.bondPrice) = false
      refine decide_eq_false ?_
      intro hc
      have hanti : pvAux x (ytmCashFlows p) 0 ≤ pvAux 0 (ytmCashFlows p) 0 :=
        pvAux_anti (ytmCashFlows p) 0 x 0 hnn le_rfl hx0
      rw [presentValue] at hc
      linarith
    have hrun : bisectGo (fun _ => false) 200 0 1 0 = ⟨0, 0 + 1 / 2 ^ 24, 24⟩ :=
      bisectGo_allFalse_go 200 0 0 1 (by norm_num) (by norm_num) (by norm_num)
    rw [calculateYTM_yieldPerPeriod, hcongr, hrun]
    norm_num [tolerance]

/-- Witness for C4: a low-price bond clamps at the upper boundary and a
high-price bond clamps at the lower boundary, with no error either way. -/
theorem claim_C4_witness :
    (0 ≤ (calculateYTM (BondParameters.mk 1 200 1 100 1)).yieldPerPeriod ∧
      (calculateYTM (BondParameters.mk 1 200 1 100 1)).yieldPerPeriod ≤ 1) ∧
    1 - tolerance ≤ (calculateYTM (BondParameters.mk 1 200 1 100 1)).yieldPerPeriod ∧
    (calculateYTM (BondParameters.mk 1000 0 1 100 1)).yieldPerPeriod ≤ tolerance :=
  ⟨claim_C4_yield_in_unit_interval.1 (BondParameters.mk 1 200 1 100 1),
    claim_C4_yield_in_unit_interval.2.1 (BondParameters.mk 1 200 1 100 1)
      (by with_unfolding_all decide) (by with_unfolding_all decide),
    claim_C4_yield_in_unit_interval.2.2 (BondParameters.mk 1000 0 1 100 1)
      (by with_unfolding_all decide) (by with_unfolding_all decide)⟩

/-- C1 (amended): for parameters with nonnegative coupon and face value,
positive frequency, and a bond price actually bracketed by the present-value
function on the search interval (presentValue 1 ≤ bondPrice ≤ presentValue 0,
i.e. the true yield lies in [0, 1]), plugging the solved yieldPerPeriod back
into presentValue reproduces bondPrice within the bisection tolerance 1e-7
times the scale Σ (t+1)·cashFlow[t] of the inputs. -/
theorem claim_C1_roundtrip (p : BondParameters)
    (hc : 0 ≤ p.couponPayment) (hf : 0 ≤ p.faceValue) (hfreq : 0 < p.frequency)
    (hbr1 : presentValue (calculateYTM p).cashFlows 1 ≤ p.bondPrice)
    (hbr0 : p.bondPrice ≤ presentValue (calculateYTM p).cashFlows 0) :
    |presentValue (calculateYTM p).cashFlows (calculateYTM p).yieldPerPeriod - p.bondPrice| ≤
      tolerance * pvWeight (calculateYTM p).cashFlows 0 := by
  rw [calculateYTM_cashFlows] at hbr1 hbr0 ⊢
  rw [calculateYTM_yieldPerPeriod]
  have hnn : ∀ cf ∈ ytmCashFlows p, 0 ≤ cf := by
    intro cf hcf
    have hcp : 0 ≤ p.couponPayment / p.frequency := div_nonneg hc (le_of_lt hfreq)
    rcases mkCashFlows_mem _ _ _ cf hcf with h | h
    · rw [h]; exact hcp
    · rw [h]; linarith
  obtain ⟨_, hw, h0, hlh, hh1⟩ := ytmBisect_spec p
  obtain ⟨hblo, hbhi⟩ := ytmBisect_bracket p hbr0 hbr1
  rw [presentValue] at hblo hbhi ⊢
  have hyl : (ytmBisect p).low ≤ ((ytmBisect p).low + (ytmBisect p).high) / 2 := by linarith
  have hyh : ((ytmBisect p).low + (ytmBisect p).high) / 2 ≤ (ytmBisect p).high := by linarith
  have hy0 : 0 ≤ ((ytmBisect p).low + (ytmBisect p).high) / 2 := by linarith
  have hpv1 : pvAux (((ytmBisect p).low + (ytmBisect p).high) / 2) (ytmCashFlows p) 0 ≤
      pvAux (ytmBisect p).low (ytmCashFlows p) 0 :=
    pvAux_anti (ytmCashFlows p) 0 _ _ hnn h0 hyl
  have hpv2 : pvAux (ytmBisect p).high (ytmCashFlows p) 0 ≤
      pvAux (((ytmBisect p).low + (ytmBisect p).high) / 2) (ytmCashFlows p) 0 :=
    pvAux_anti (ytmCashFlows p) 0 _ _ hnn hy0 hyh
  have hlip : pvAux (ytmBisect p).low (ytmCashFlows p) 0 -
      pvAux (ytmBisect p).high (ytmCashFlows p) 0 ≤
      pvWeight (ytmCashFlows p) 0 * ((ytmBisect p).high - (ytmBisect p).low) :=
    pvAux_lipschitz (ytmCashFlows p) 0 _ _ hnn h0 hlh
  have hWnn : 0 ≤ pvWeight (ytmCashFlows p) 0 := pvWeight_nonneg (ytmCashFlows p) 0 hnn
  have hWtol : pvWeight (ytmCashFlows p) 0 * ((ytmBisect p).high - (ytmBisect p).low) ≤
      pvWeight (ytmCashFlows p) 0 * tolerance := by
    rw [hw]
    exact mul_le_mul_of_nonneg_left inv_pow_24_le_tolerance hWnn
  have hcomm : pvWeight (ytmCashFlows p) 0 * tolerance =
      tolerance * pvWeight (ytmCashFlows p) 0 := mul_comm _ _
  refine abs_le.mpr ⟨by linarith, by linarith⟩

/-- Witness for the amended C1 at the repository's canonical example input. -/
theorem claim_C1_roundtrip_witness :
    (presentValue (calculateYTM (BondParameters.mk 100 6 5 100 2)).cashFlows 1 ≤
        (BondParameters.mk 100 6 5 100 2).bondPrice ∧
      (BondParameters.mk 100 6 5 100 2).bondPrice ≤
        presentValue (calculateYTM (BondParameters.mk 100 6 5 100 2)).cashFlows 0) ∧
    |presentValue (calculateYTM (BondParameters.mk 100 6 5 100 2)).cashFlows
        (calculateYTM (BondParameters.mk 100 6 5 100 2)).yieldPerPeriod -
      (BondParameters.mk 100 6 5 100 2).bondPrice| ≤
      tolerance * pvWeight (calculateYTM (BondParameters.mk 100 6 5 100 2)).cashFlows 0 := by
  refine ⟨⟨by with_unfolding_all decide, by with_unfolding_all decide⟩, ?_⟩
  exact claim_C1_roundtrip (BondParameters.mk 100 6 5 100 2) (by norm_num) (by norm_num)
    (by norm_num) (by with_unfolding_all decide) (by with_unfolding_all decide)

/-- C1 (counterexample): at bondPrice 1000 with a zero-coupon one-year bond of
face 100, the true yield is far outside the search interval, the solver clamps
at the low boundary, and the present value at the returned yield misses the
bond price by at least 900 — far beyond 1e-7 times the scale of the inputs. -/
theorem claim_C1_counterexample :
    900 ≤ |presentValue (calculateYTM (BondParameters.mk 1000 0 1 100 1)).cashFlows
        (calculateYTM (BondParameters.mk 1000 0 1 100 1)).yieldPerPeriod -
      (BondParameters.mk 1000 0 1 100 1).bondPrice| ∧
    ¬ (|presentValue (calculateYTM (BondParameters.mk 1000 0 1 100 1)).cashFlows
        (calculateYTM (BondParameters.mk 1000 0 1 100 1)).yieldPerPeriod -
      (BondParameters.mk 1000 0 1 100 1).bondPrice| ≤
      tolerance * pvWeight (calculateYTM (BondParameters.mk 1000 0 1 100 1)).cashFlows 0) := by
  have hcfs : (calculateYTM (BondParameters.mk 1000 0 1 100 1)).cashFlows = [100] := by
    with_unfolding_all decide
  obtain ⟨hy0, hy1⟩ := calculateYTM_yield_bounds (BondParameters.mk 1000 0 1 100 1)
  have hbp : (BondParameters.mk 1000 0 1 100 1).bondPrice = 1000 := rfl
  rw [hcfs, hbp, presentValue]
  have hub : pvAux ((calculateYTM (BondParameters.mk 1000 0 1 100 1)).yieldPerPeriod)
      [(100 : ℚ)] 0 ≤ pvAux 0 [(100 : ℚ)] 0 :=
    pvAux_anti [100] 0 _ 0 (by norm_num) le_rfl hy0
  have hpv0 : pvAux (0 : ℚ) [(100 : ℚ)] 0 = 100 := by with_unfolding_all decide
  have hW : pvWeight [(100 : ℚ)] 0 = 100 := by with_unfolding_all decide
  have habs : |pvAux ((calculateYTM (BondParameters.mk 1000 0 1 100 1)).yieldPerPeriod)
      [(100 : ℚ)] 0 - 1000| =
      -(pvAux ((calculateYTM (BondParameters.mk 1000 0 1 100 1)).yieldPerPeriod)
        [(100 : ℚ)] 0 - 1000) :=
    abs_of_nonpos (by linarith)
  rw [habs, hW, tolerance]
  constructor
  · linarith
  · intro hc
    norm_num at hc
    linarith

/-- C2 (amended): for inputs with couponPayment = r · faceValue and
bondPrice = faceValue, positive faceValue, a positive whole number of periods
n = years · frequency, and a per-period rate inside the search interval
(0 ≤ r ≤ frequency, with 1 ≤ frequency ≤ 3355 so that the bisection error
per period times frequency stays under the stated tolerance), the solved
bondEquivalentYield equals r within 1e-4 absolute tolerance. -/
theorem claim_C2_parbond (p : BondParameters) (r : ℚ) (n : ℕ)
    (hcp : p.couponPayment = r * p.faceValue) (hbp : p.bondPrice = p.faceValue)
    (hn : (n : ℚ) = p.years * p.frequency) (hn1 : 1 ≤ n) (hface : 0 < p.faceValue)
    (hr0 : 0 ≤ r) (hrf : r ≤ p.frequency) (hf1 : 1 ≤ p.frequency) (hf2 : p.frequency ≤ 3355) :
    |(calculateYTM p).bondEquivalentYield - r| ≤ 1 / 10000 := by
  have hfreq0 : (0:ℚ) < p.frequency := by linarith
  have hρ0 : 0 ≤ r / p.frequency := div_nonneg hr0 (le_of_lt hfreq0)
  have hρ1 : r / p.frequency ≤ 1 := (div_le_one hfreq0).mpr hrf
  have hcoupon : p.couponPayment / p.frequency = r / p.frequency * p.faceValue := by
    rw [hcp, div_mul_eq_mul_div]
  have hcfs : ytmCashFlows p =
      mkCashFlows (r / p.frequency * p.faceValue) p.faceValue ((n : ℕ) : ℚ) := by
    rw [ytmCashFlows, hcoupon, ← hn]
  have hpvρ : pvAux (r / p.frequency) (ytmCashFlows p) 0 = p.faceValue := by
    rw [hcfs]
    exact pvAux_parList n hn1 p.faceValue (r / p.frequency) hρ0
  have hnn : ∀ cf ∈ ytmCashFlows p, 0 ≤ cf := by
    intro cf hcf
    have hc0 : 0 ≤ r / p.frequency * p.faceValue := mul_nonneg hρ0 (le_of_lt hface)
    rw [hcfs] at hcf
    rcases mkCashFlows_mem _ _ _ cf hcf with h | h
    · rw [h]; exact hc0
    · rw [h]; linarith
  have hpos : ∃ cf ∈ ytmCashFlows p, 0 < cf := by
    rw [hcfs]
    have hc0 : 0 ≤ r / p.frequency * p.faceValue := mul_nonneg hρ0 (le_of_lt hface)
    exact ⟨r / p.frequency * p.faceValue + p.faceValue,
      mkCashFlows_last_mem _ _ n hn1, by linarith⟩
  have hbr0 : p.bondPrice ≤ presentValue (ytmCashFlows p) 0 := by
    have h := pvAux_anti (ytmCashFlows p) 0 (r / p.frequency) 0 hnn le_rfl hρ0
    rw [presentValue, hbp]
    linarith [hpvρ]
  have hbr1 : presentValue (ytmCashFlows p) 1 ≤ p.bondPrice := by
    have h := pvAux_anti (ytmCashFlows p) 0 1 (r / p.frequency) hnn hρ0 hρ1
    rw [presentValue, hbp]
    linarith [hpvρ]
  obtain ⟨_, hw, h0, hlh, hh1⟩ := ytmBisect_spec p
  obtain ⟨hblo, hbhi⟩ := ytmBisect_bracket p hbr0 hbr1
  rw [presentValue, hbp] at hblo hbhi
  have hlo : (ytmBisect p).low ≤ r / p.frequency := by
    by_contra hcon
    push_neg at hcon
    have h := pvAux_strictAnti (ytmCashFlows p) 0 (ytmBisect p).low (r / p.frequency)
      hnn hpos hρ0 hcon
    rw [hpvρ] at h
    linarith
  have hhi : r / p.frequency ≤ (ytmBisect p).high := by
    by_contra hcon
    push_neg at hcon
    have hhigh0 : 0 ≤ (ytmBisect p).high := le_trans h0 hlh
    have h := pvAux_strictAnti (ytmCashFlows p) 0 (r / p.frequency) (ytmBisect p).high
      hnn hpos hhigh0 hcon
    rw [hpvρ] at h
    linarith
  have h24 : (1:ℚ) / 2 ^ 24 = 2 * (1 / 2 ^ 25) := by norm_num
  have hyd : |((ytmBisect p).low + (ytmBisect p).high) / 2 - r / p.frequency| ≤ 1 / 2 ^ 25 :=
    abs_le.mpr ⟨by linarith, by linarith⟩
  rw [calculateYTM_bey]
  have hrρ : r / p.frequency * p.frequency = r := div_mul_cancel₀ r (ne_of_gt hfreq0)
  have hfac : ((ytmBisect p).low + (ytmBisect p).high) / 2 * p.frequency - r =
      (((ytmBisect p).low + (ytmBisect p).high) / 2 - r / p.frequency) * p.frequency := by
    rw [sub_mul, hrρ]
  rw [hfac, abs_mul, abs_of_pos hfreq0]
  have hstep : |((ytmBisect p).low + (ytmBisect p).high) / 2 - r / p.frequency| * p.frequency ≤
      1 / 2 ^ 25 * 3355 :=
    mul_le_mul hyd hf2 (le_of_lt hfreq0) (by norm_num)
  have hfinal : (1:ℚ) / 2 ^ 25 * 3355 ≤ 1 / 10000 := by norm_num
  linarith

/-- Witness for the amended C2 at the specification's concrete example. -/
theorem claim_C2_parbond_witness :
    (BondParameters.mk 100 6 5 100 2).couponPayment =
        6 / 100 * (BondParameters.mk 100 6 5 100 2).faceValue ∧
    (BondParameters.mk 100 6 5 100 2).bondPrice = (BondParameters.mk 100 6 5 100 2).faceValue ∧
    ((10 : ℕ) : ℚ) = (BondParameters.mk 100 6 5 100 2).years *
        (BondParameters.mk 100 6 5 100 2).frequency ∧
    |(calculateYTM (BondParameters.mk 100 6 5 100 2)).bondEquivalentYield - 6 / 100| ≤
      1 / 10000 := by
  refine ⟨by with_unfolding_all decide, rfl, by with_unfolding_all decide, ?_⟩
  exact claim_C2_parbond (BondParameters.mk 100 6 5 100 2) (6 / 100) 10
    (by with_unfolding_all decide) rfl (by with_unfolding_all decide) (by norm_num)
    (by norm_num) (by norm_num) (by with_unfolding_all decide) (by norm_num) (by norm_num)

/-- C2 (counterexample): the claim as stated quantifies over every coupon rate
r; at r = 3 with frequency 1 (coupon 300 on face 100, price at par) the true
per-period yield 3 lies outside the search interval [0, 1], the solver clamps
near 1, and the solved bondEquivalentYield misses r = 3 by about 2 — far
beyond the 1e-4 tolerance. -/
theorem claim_C2_counterexample :
    (BondParameters.mk 100 (3 * 100) 1 100 1).couponPayment =
        3 * (BondParameters.mk 100 (3 * 100) 1 100 1).faceValue ∧
    (BondParameters.mk 100 (3 * 100) 1 100 1).bondPrice =
        (BondParameters.mk 100 (3 * 100) 1 100 1).faceValue ∧
    ¬ (|(calculateYTM (BondParameters.mk 100 (3 * 100) 1 100 1)).bondEquivalentYield - 3| ≤
        1 / 10000) := by
  refine ⟨rfl, rfl, ?_⟩
  intro hc
  obtain ⟨hy0, hy1⟩ := calculateYTM_yield_bounds (BondParameters.mk 100 (3 * 100) 1 100 1)
  rw [calculateYTM_yieldPerPeriod] at hy1
  rw [calculateYTM_bey] at hc
  have hfp : (BondParameters.mk 100 (3 * 100) 1 100 1).frequency = 1 := rfl
  rw [hfp, mul_one] at hc
  have h := abs_le.mp hc
  linarith [h.1]

/-- C3 (amended): holding couponPayment, years, faceValue and frequency fixed
with nonnegative frequency, the bondEquivalentYield returned by calculateYTM
is non-increasing (not strictly decreasing) in bondPrice; at the
specification's concrete inputs the change is strict: price 95 yields more
than 0.06 and price 105 yields less than 0.06. -/
theorem claim_C3_price_monotone (price1 price2 couponPayment years faceValue frequency : ℚ)
    (hp : price1 ≤ price2) (hfreq : 0 ≤ frequency) :
    (calculateYTM (BondParameters.mk price2 couponPayment years faceValue
        frequency)).bondEquivalentYield ≤
      (calculateYTM (BondParameters.mk price1 couponPayment years faceValue
        frequency)).bondEquivalentYield ∧
    6 / 100 < (calculateYTM (BondParameters.mk 95 6 5 100 2)).bondEquivalentYield ∧
    (calculateYTM (BondParameters.mk 105 6 5 100 2)).bondEquivalentYield < 6 / 100 := by
  refine ⟨?_, ?_, ?_⟩
  · have himp : ∀ x : ℚ,
        (fun mid => decide (presentValue (ytmCashFlows (BondParameters.mk price2 couponPayment
          years faceValue frequency)) mid >
          (BondParameters.mk price2 couponPayment years faceValue frequency).bondPrice)) x =
          true →
        (fun mid => decide (presentValue (ytmCashFlows (BondParameters.mk price1 couponPayment
          years faceValue frequency)) mid >
          (BondParameters.mk price1 couponPayment years faceValue frequency).bondPrice)) x =
          true := by
      intro x hx
      have h2 := of_decide_eq_true hx
      exact decide_eq_true (lt_of_le_of_lt hp h2)
    have hpair := bisectGo_pair _ _ himp maxIterations 0 1 0 1 0
      (by norm_num) (by norm_num) rfl (Or.inl ⟨rfl, rfl⟩)
    obtain ⟨hr1, hr2, hd⟩ := hpair
    have e1 : ytmBisect (BondParameters.mk price1 couponPayment years faceValue frequency) =
        bisectGo (fun mid => decide (presentValue (ytmCashFlows (BondParameters.mk price1
          couponPayment years faceValue frequency)) mid >
          (BondParameters.mk price1 couponPayment years faceValue frequency).bondPrice))
          maxIterations 0 1 0 := rfl
    have e2 : ytmBisect (BondParameters.mk price2 couponPayment years faceValue frequency) =
        bisectGo (fun mid => decide (presentValue (ytmCashFlows (BondParameters.mk price2
          couponPayment years faceValue frequency)) mid >
          (BondParameters.mk price2 couponPayment years faceValue frequency).bondPrice))
          maxIterations 0 1 0 := rfl
    rw [calculateYTM_bey, calculateYTM_bey, e1, e2]
    have hmid : ((bisectGo (fun mid => decide (presentValue (ytmCashFlows (BondParameters.mk
        price2 couponPayment years faceValue frequency)) mid >
        (BondParameters.mk price2 couponPayment years faceValue frequency).bondPrice))
        maxIterations 0 1 0).low +
        (bisectGo (fun mid => decide (presentValue (ytmCashFlows (BondParameters.mk price2
          couponPayment years faceValue frequency)) mid >
          (BondParameters.mk price2 couponPayment years faceValue frequency).bondPrice))
          maxIterations 0 1 0).high) / 2 ≤
        ((bisectGo (fun mid => decide (presentValue (ytmCashFlows (BondParameters.mk price1
          couponPayment years faceValue frequency)) mid >
          (BondParameters.mk price1 couponPayment years faceValue frequency).bondPrice))
          maxIterations 0 1 0).low +
        (bisectGo (fun mid => decide (presentValue (ytmCashFlows (BondParameters.mk price1
          couponPayment years faceValue frequency)) mid >
          (BondParameters.mk price1 couponPayment years faceValue frequency).bondPrice))
          maxIterations 0 1 0).high) / 2 := by
      rcases hd with ⟨hl, hh⟩ | hle
      · rw [hl, hh]
      · linarith
    exact mul_le_mul_of_nonneg_right hmid hfreq
  · have hcfs : ytmCashFlows (BondParameters.mk 95 6 5 100 2) =
        [3, 3, 3, 3, 3, 3, 3, 3, 3, 103] := by
      with_unfolding_all decide
    have hnn : ∀ cf ∈ ytmCashFlows (BondParameters.mk 95 6 5 100 2), 0 ≤ cf := by
      rw [hcfs]
      with_unfolding_all decide
    obtain ⟨_, hw, h0, hlh, hh1⟩ := ytmBisect_spec (BondParameters.mk 95 6 5 100 2)
    have hbr0 : (BondParameters.mk 95 6 5 100 2).bondPrice ≤
        presentValue (ytmCashFlows (BondParameters.mk 95 6 5 100 2)) 0 := by
      with_unfolding_all decide
    have hbr1 : presentValue (ytmCashFlows (BondParameters.mk 95 6 5 100 2)) 1 ≤
        (BondParameters.mk 95 6 5 100 2).bondPrice := by
      with_unfolding_all decide
    obtain ⟨hblo, hbhi⟩ := ytmBisect_bracket (BondParameters.mk 95 6 5 100 2) hbr0 hbr1
    rw [presentValue] at hbhi
    have hmargin : (95 : ℚ) <
        pvAux (7 / 200) (ytmCashFlows (BondParameters.mk 95 6 5 100 2)) 0 := by
      rw [hcfs]
      with_unfolding_all decide
    have hhigh : 7 / 200 < (ytmBisect (BondParameters.mk 95 6 5 100 2)).high := by
      by_contra hcon
      push_neg at hcon
      have hhigh0 : 0 ≤ (ytmBisect (BondParameters.mk 95 6 5 100 2)).high := le_trans h0 hlh
      have h := pvAux_anti (ytmCashFlows (BondParameters.mk 95 6 5 100 2)) 0 (7 / 200)
        (ytmBisect (BondParameters.mk 95 6 5 100 2)).high hnn hhigh0 hcon
      have hbp : (BondParameters.mk 95 6 5 100 2).bondPrice = 95 := rfl
      rw [hbp] at hbhi
      linarith
    have hw' : (ytmBisect (BondParameters.mk 95 6 5 100 2)).high -
        (ytmBisect (BondParameters.mk 95 6 5 100 2)).low = 1 / 16777216 := by
      rw [hw]; norm_num
    rw [calculateYTM_bey]
    have hfp : (BondParameters.mk 95 6 5 100 2).frequency = 2 := rfl
    rw [hfp]
    linarith
  · have hcfs : ytmCashFlows (BondParameters.mk 105 6 5 100 2) =
        [3, 3, 3, 3, 3, 3, 3, 3, 3, 103] := by
      with_unfolding_all decide
    have hnn : ∀ cf ∈ ytmCashFlows (BondParameters.mk 105 6 5 100 2), 0 ≤ cf := by
      rw [hcfs]
      with_unfolding_all decide
    obtain ⟨_, hw, h0, hlh, hh1⟩ := ytmBisect_spec (BondParameters.mk 105 6 5 100 2)
    have hbr0 : (BondParameters.mk 105 6 5 100 2).bondPrice ≤
        presentValue (ytmCashFlows (BondParameters.mk 105 6 5 100 2)) 0 := by
      with_unfolding_all decide
    have hbr1 : presentValue (ytmCashFlows (BondParameters.mk 105 6 5 100 2)) 1 ≤
        (BondParameters.mk 105 6 5 100 2).bondPrice := by
      with_unfolding_all decide
    obtain ⟨hblo, hbhi⟩ := ytmBisect_bracket (BondParameters.mk 105 6 5 100 2) hbr0 hbr1
    rw [presentValue] at hblo
    have hmargin : pvAux (29 / 1000) (ytmCashFlows (BondParameters.mk 105 6 5 100 2)) 0 <
        105 := by
      rw [hcfs]
      with_unfolding_all decide
    have hlow : (ytmBisect (BondParameters.mk 105 6 5 100 2)).low < 29 / 1000 := by
      by_contra hcon
      push_neg at hcon
      have h := pvAux_anti (ytmCashFlows (BondParameters.mk 105 6 5 100 2)) 0
        (ytmBisect (BondParameters.mk 105 6 5 100 2)).low (29 / 1000) hnn (by norm_num) hcon
      have hbp : (BondParameters.mk 105 6 5 100 2).bondPrice = 105 := rfl
      rw [hbp] at hblo
      linarith
    have hw' : (ytmBisect (BondParameters.mk 105 6 5 100 2)).high -
        (ytmBisect (BondParameters.mk 105 6 5 100 2)).low = 1 / 16777216 := by
      rw [hw]; norm_num
    rw [calculateYTM_bey]
    have hfp : (BondParameters.mk 105 6 5 100 2).frequency = 2 := rfl
    rw [hfp]
    linarith

/-- Witness for the amended C3, comparing the two concrete prices 95 and 105. -/
theorem claim_C3_price_monotone_witness :
    ((calculateYTM (BondParameters.mk 105 6 5 100 2)).bondEquivalentYield ≤
      (calculateYTM (BondParameters.mk 95 6 5 100 2)).bondEquivalentYield) ∧
    6 / 100 < (calculateYTM (BondParameters.mk 95 6 5 100 2)).bondEquivalentYield ∧
    (calculateYTM (BondParameters.mk 105 6 5 100 2)).bondEquivalentYield < 6 / 100 :=
  claim_C3_price_monotone 95 105 6 5 100 2 (by norm_num) (by norm_num)

/-- C3 (counterexample): strict monotonicity fails.  With coupon 6, years 5,
face 100, frequency 2 held fixed, the prices 200 and 300 both exceed the
total undiscounted cash flow of 130, every midpoint test fails for both, and
the two runs return the same clamped bondEquivalentYield. -/
theorem claim_C3_counterexample :
    (BondParameters.mk 200 6 5 100 2).bondPrice <
      (BondParameters.mk 300 6 5 100 2).bondPrice ∧
    (calculateYTM (BondParameters.mk 200 6 5 100 2)).bondEquivalentYield =
      (calculateYTM (BondParameters.mk 300 6 5 100 2)).bondEquivalentYield := by
  have hrun : ∀ price : ℚ, 130 < price →
      ytmBisect (BondParameters.mk price 6 5 100 2) = bisectGo (fun _ => false) 200 0 1 0 := by
    intro price hprice
    rw [ytmBisect, maxIterations]
    apply bisectGo_congr
    intro x hx0 hx1
    show decide (presentValue (ytmCashFlows (BondParameters.mk price 6 5 100 2)) x >
      (BondParameters.mk price 6 5 100 2).bondPrice) = false
    have hcfs : ytmCashFlows (BondParameters.mk price 6 5 100 2) =
        [3, 3, 3, 3, 3, 3, 3, 3, 3, 103] := by
      show mkCashFlows ((6 : ℚ) / 2) 100 (5 * 2) = _
      with_unfolding_all decide
    rw [hcfs]
    refine decide_eq_false ?_
    intro hc
    have hanti : pvAux x [(3 : ℚ), 3, 3, 3, 3, 3, 3, 3, 3, 103] 0 ≤
        pvAux 0 [(3 : ℚ), 3, 3, 3, 3, 3, 3, 3, 3, 103] 0 :=
      pvAux_anti _ 0 x 0 (by with_unfolding_all decide) le_rfl hx0
    have hpv0 : pvAux (0 : ℚ) [(3 : ℚ), 3, 3, 3, 3, 3, 3, 3, 3, 103] 0 = 130 := by
      with_unfolding_all decide
    have hbp : (BondParameters.mk price 6 5 100 2).bondPrice = price := rfl
    rw [hbp, presentValue] at hc
    linarith
  constructor
  · show (200 : ℚ) < 300
    norm_num
  · rw [calculateYTM_bey, calculateYTM_bey, hrun 200 (by norm_num), hrun 300 (by norm_num)]

/-- Sum of a one-hot list: only the final period of the schedule carries a
principal payment. -/
lemma sum_range_map_ite (m : ℕ) (v : ℚ) :
    ((List.range (m + 1)).map fun k : ℕ => if k + 1 = m + 1 then v else 0).sum = v := by
  rw [List.range_succ, List.map_append, List.sum_append]
  have h1 : ((List.range m).map fun k : ℕ => if k + 1 = m + 1 then v else 0).sum = 0 := by
    apply List.sum_eq_zero
    intro x hx
    obtain ⟨k, hk, hkx⟩ := List.mem_map.mp hx
    have hkm : k < m := List.mem_range.mp hk
    rw [if_neg (by omega)] at hkx
    exact hkx.symm
  rw [h1]
  simp

/-- Structural form of generateCashFlows when periods is a whole number n:
the loop bound is n and the redemption test compares integer period numbers. -/
lemma generateCashFlows_natPeriods
    (bondPrice faceValue frequency years couponPayment ytmPerPeriod : ℚ)
    (n : ℕ) (hn : (n : ℚ) = years * frequency) :
    generateCashFlows bondPrice faceValue frequency years couponPayment ytmPerPeriod =
      ⟨0, 0, 0, -bondPrice, -bondPrice⟩ ::
        (List.range n).map (fun k : ℕ =>
          ⟨k + 1, ((k : ℚ) + 1) / frequency, couponPayment,
            if k + 1 = n then faceValue else 0,
            couponPayment + (if k + 1 = n then faceValue else 0)⟩) := by
  rw [generateCashFlows]
  have hfl : ⌊years * frequency⌋₊ = n := by rw [← hn, Nat.floor_natCast]
  rw [hfl]
  congr 1
  apply List.map_congr_left
  intro k _
  have hcond : (((k : ℚ) + 1) = years * frequency) ↔ (k + 1 = n) := by
    rw [← hn, show ((k : ℚ) + 1) = ((k + 1 : ℕ) : ℚ) from by push_cast; ring, Nat.cast_inj]
  simp only [hcond]

/-- C5: for all valid parameters with a positive whole number of periods
n = years · frequency, the schedule has exactly n + 1 entries numbered 0
through n with timeYears = period / frequency throughout; entry 0 is the
purchase row (coupon 0, principal -bondPrice, total -bondPrice); every
interior entry pays exactly the periodic coupon with zero principal; the last
entry pays coupon plus the face value; and the principal payments sum to
faceValue - bondPrice. -/
theorem claim_C5_schedule (bondPrice faceValue frequency years couponPayment ytmPerPeriod : ℚ)
    (n : ℕ) (hn : (n : ℚ) = years * frequency) (hn0 : 0 < n) :
    (generateCashFlows bondPrice faceValue frequency years couponPayment
        ytmPerPeriod).length = n + 1 ∧
    (generateCashFlows bondPrice faceValue frequency years couponPayment
        ytmPerPeriod).map (fun e => e.period) = List.range (n + 1) ∧
    (generateCashFlows bondPrice faceValue frequency years couponPayment
        ytmPerPeriod).map (fun e => e.timeYears) =
      (List.range (n + 1)).map (fun i : ℕ => (i : ℚ) / frequency) ∧
    cfAt (generateCashFlows bondPrice faceValue frequency years couponPayment
        ytmPerPeriod) 0 = ⟨0, 0, 0, -bondPrice, -bondPrice⟩ ∧
    (((generateCashFlows bondPrice faceValue frequency years couponPayment
        ytmPerPeriod).take n).drop 1).map (fun e => (e.principalPayment, e.totalCashFlow)) =
      List.replicate (n - 1) ((0 : ℚ), couponPayment) ∧
    cfAt (generateCashFlows bondPrice faceValue frequency years couponPayment
        ytmPerPeriod) n =
      ⟨n, (n : ℚ) / frequency, couponPayment, faceValue, couponPayment + faceValue⟩ ∧
    ((generateCashFlows bondPrice faceValue frequency years couponPayment
        ytmPerPeriod).map fun e => e.principalPayment).sum = faceValue - bondPrice := by
  rw [generateCashFlows_natPeriods bondPrice faceValue frequency years couponPayment
    ytmPerPeriod n hn]
  obtain ⟨m, rfl⟩ : ∃ m, n = m + 1 := ⟨n - 1, by omega⟩
  refine ⟨?_, ?_, ?_, ?_, ?_, ?_, ?_⟩
  · simp
  · rw [List.map_cons, List.map_map]
    conv_rhs => rw [List.range_succ_eq_map]
    congr 1
  · rw [List.map_cons, List.map_map]
    conv_rhs => rw [List.range_succ_eq_map, List.map_cons, List.map_map]
    congr 1
    · simp
    · apply List.map_congr_left
      intro k _
      show ((k : ℚ) + 1) / frequency = ((Nat.succ k : ℕ) : ℚ) / frequency
      congr 1
      push_cast
      ring
  · rw [cfAt]
    rfl
  · rw [List.take_succ_cons, List.drop_one, List.tail_cons, ← List.map_take, List.take_range]
    have hmin : min m (m + 1) = m := by omega
    rw [hmin, List.map_map]
    refine List.eq_replicate_iff.mpr ⟨by simp, ?_⟩
    intro b hb
    obtain ⟨k, hk, hkb⟩ := List.mem_map.mp hb
    have hkm : k < m := List.mem_range.mp hk
    rw [← hkb]
    show (if k + 1 = m + 1 then faceValue else 0,
      couponPayment + (if k + 1 = m + 1 then faceValue else 0)) = ((0 : ℚ), couponPayment)
    rw [if_neg (by omega), add_zero]
  · rw [cfAt, List.getD_cons_succ]
    have hm : m < ((List.range (m + 1)).map (fun k : ℕ =>
        (⟨k + 1, ((k : ℚ) + 1) / frequency, couponPayment,
          if k + 1 = m + 1 then faceValue else 0,
          couponPayment + (if k + 1 = m + 1 then faceValue else 0)⟩ :
            CashFlowEntry))).length := by simp
    rw [List.getD_eq_getElem _ _ hm]
    rw [List.getElem_map, List.getElem_range]
    rw [if_pos rfl]
    have hcast : ((m : ℚ) + 1) = ((m + 1 : ℕ) : ℚ) := by push_cast; ring
    rw [hcast]
  · rw [List.map_cons, List.map_map, List.sum_cons]
    have hsum : ((List.range (m + 1)).map ((fun e : CashFlowEntry => e.principalPayment) ∘
        (fun k : ℕ =>
          (⟨k + 1, ((k : ℚ) + 1) / frequency, couponPayment,
            if k + 1 = m + 1 then faceValue else 0,
            couponPayment + (if k + 1 = m + 1 then faceValue else 0)⟩ :
              CashFlowEntry)))).sum =
        ((List.range (m + 1)).map fun k : ℕ => if k + 1 = m + 1 then faceValue else 0).sum :=
      rfl
    rw [hsum, sum_range_map_ite]
    ring

/-- Witness for C5 at the canonical 10-period example. -/
theorem claim_C5_schedule_witness :
    ((10 : ℕ) : ℚ) = 5 * 2 ∧
    (generateCashFlows 100 100 2 5 3 (3 / 100)).length = 10 + 1 ∧
    ((generateCashFlows 100 100 2 5 3 (3 / 100)).map fun e => e.principalPayment).sum =
      100 - 100 := by
  have h := claim_C5_schedule 100 100 2 5 3 (3 / 100) 10 (by with_unfolding_all decide)
    (by norm_num)
  exact ⟨by with_unfolding_all decide, h.1, h.2.2.2.2.2.2⟩

/-- C10: when periods = years · frequency is positive but not a whole number,
the face-value redemption silently disappears from both outputs: the solver's
internal cash-flow array consists solely of coupon payments (the i = periods-1
test never fires for an integer index), so presentValue never discounts the
face value; and no row of the generated schedule after period 0 carries any
principal (the t = periods test never fires for an integer t). -/
theorem claim_C10_fractional (p : BondParameters) (couponArg ytmArg : ℚ)
    (hpos : 0 < p.years * p.frequency)
    (hfrac : ((⌈p.years * p.frequency⌉₊ : ℕ) : ℚ) ≠ p.years * p.frequency) :
    (calculateYTM p).cashFlows =
      List.replicate ⌈p.years * p.frequency⌉₊ (p.couponPayment / p.frequency) ∧
    (generateCashFlows p.bondPrice p.faceValue p.frequency p.years couponArg ytmArg).map
        (fun e => e.principalPayment) =
      -p.bondPrice :: List.replicate ⌊p.years * p.frequency⌋₊ 0 := by
  constructor
  · rw [calculateYTM_cashFlows, ytmCashFlows, mkCashFlows]
    refine List.eq_replicate_iff.mpr ⟨by simp, ?_⟩
    intro b hb
    obtain ⟨i, _, hib⟩ := List.mem_map.mp hb
    have hne : ¬ ((i : ℚ) = p.years * p.frequency - 1) := by
      intro hc
      have hceq : p.years * p.frequency = ((i + 1 : ℕ) : ℚ) := by push_cast; linarith
      rw [hceq, Nat.ceil_natCast] at hfrac
      exact hfrac rfl
    rw [if_neg hne] at hib
    exact hib.symm
  · rw [generateCashFlows, List.map_cons, List.map_map]
    congr 1
    refine List.eq_replicate_iff.mpr ⟨by simp, ?_⟩
    intro b hb
    obtain ⟨k, _, hkb⟩ := List.mem_map.mp hb
    have hne : ¬ (((k : ℚ) + 1) = p.years * p.frequency) := by
      intro hc
      have hceq : p.years * p.frequency = ((k + 1 : ℕ) : ℚ) := by push_cast; linarith
      rw [hceq, Nat.ceil_natCast] at hfrac
      exact hfrac rfl
    rw [← hkb]
    show (if ((k : ℚ) + 1) = p.years * p.frequency then p.faceValue else 0) = 0
    rw [if_neg hne]

/-- Witness for C10 at years = 5/4 with semiannual frequency: periods = 5/2. -/
theorem claim_C10_fractional_witness :
    ((0 : ℚ) < (BondParameters.mk 100 6 (5 / 4) 100 2).years *
        (BondParameters.mk 100 6 (5 / 4) 100 2).frequency ∧
      ((⌈(BondParameters.mk 100 6 (5 / 4) 100 2).years *
          (BondParameters.mk 100 6 (5 / 4) 100 2).frequency⌉₊ : ℚ) ≠
        (BondParameters.mk 100 6 (5 / 4) 100 2).years *
          (BondParameters.mk 100 6 (5 / 4) 100 2).frequency)) ∧
    (calculateYTM (BondParameters.mk 100 6 (5 / 4) 100 2)).cashFlows =
      List.replicate ⌈(BondParameters.mk 100 6 (5 / 4) 100 2).years *
          (BondParameters.mk 100 6 (5 / 4) 100 2).frequency⌉₊
        ((BondParameters.mk 100 6 (5 / 4) 100 2).couponPayment /
          (BondParameters.mk 100 6 (5 / 4) 100 2).frequency) := by
  refine ⟨⟨by with_unfolding_all decide, by with_unfolding_all decide⟩, ?_⟩
  exact (claim_C10_fractional (BondParameters.mk 100 6 (5 / 4) 100 2) 3 0
    (by with_unfolding_all decide) (by with_unfolding_all decide)).1
